import Mathlib

/-!
Shallow embedding of the python-resolver package (src/resolver).

The repository code is embedded definition by definition:
`canonicalize_name`, the wheel-filename regex, `WheelArchive.tags`,
`Candidate` (validity and dependency derivation), `DependencyKey`,
`Provider` (`identify`, `is_satisfied_by`, `find_matches`,
`_get_candidates`, `sort_candidates`), the mindeps variant's
`sort_candidates`, and `get_min_deps` from `resolver.mindeps.__main__`.

External libraries used by the code (`packaging`, `mousebender`,
`resolvelib`) are not part of the repository; they are modelled by small
executable stand-ins: versions are lists of numeric release segments
ordered lexicographically after stripping trailing zeros (PEP 440 pads
with zeros, so `1.0 == 1.0.0`), specifier sets are lists of
operator/version clauses, and a marker's dependence on the `extra`
variable is modelled as a finite/cofinite set of extra names (every
PEP 508 boolean expression restricted to `extra` denotes such a set).
Network effects (wheel downloads) are made explicit: enumeration
functions return the list of wheel filenames whose archives they had to
download, alongside their ordinary result.
-/

namespace PyResolver

/-- Model of `packaging.version.Version`: the list of numeric release
segments.  Comparisons strip trailing zero segments first, mirroring the
zero-padding rule of PEP 440 release ordering. -/
structure Version where
  release : List Nat
deriving DecidableEq, Repr

/-- Trailing zero segments are insignificant for PEP 440 release
comparison (`1.0` equals `1.0.0`). -/
def stripZeros (l : List Nat) : List Nat :=
  (l.reverse.dropWhile (fun n => n = 0)).reverse

/-- Strict version order (model of `Version.__lt__`). -/
def vLt (a b : Version) : Bool :=
  decide (stripZeros a.release < stripZeros b.release)

/-- Non-strict version order (model of `Version.__le__`). -/
def vLe (a b : Version) : Bool :=
  decide (stripZeros a.release ≤ stripZeros b.release)

/-- Version equality (model of `Version.__eq__`, which compares the
normalised form, so `1.0 == 1.0.0`). -/
def vEq (a b : Version) : Bool :=
  decide (stripZeros a.release = stripZeros b.release)

/-- The eight comparison operators a specifier clause may carry
(`==, !=, <=, >=, <, >, ~=, ===`). -/
inductive SpecOp where
  | eq | ne | le | ge | lt | gt | compatible | arbitrary
deriving DecidableEq, Repr

/-- One clause `OP version` of a specifier set. -/
structure SpecClause where
  op : SpecOp
  version : Version
deriving DecidableEq, Repr

/-- Whether a version satisfies one specifier clause (model of the
clause semantics of `packaging.specifiers`). -/
def clauseHolds (v : Version) (cl : SpecClause) : Bool :=
  match cl.op with
  | .eq => vEq v cl.version
  | .ne => !(vEq v cl.version)
  | .le => vLe v cl.version
  | .ge => vLe cl.version v
  | .lt => vLt v cl.version
  | .gt => vLt cl.version v
  | .compatible => vLe cl.version v && cl.version.release.dropLast.isPrefixOf v.release
  | .arbitrary => decide (v.release = cl.version.release)

/-- Membership of a version in a specifier set: the conjunction of all
clauses (model of `version in specifier`). -/
def specContains (spec : List SpecClause) (v : Version) : Bool :=
  spec.all (clauseHolds v)

/-- Model of a PEP 508 marker's dependence on the `extra` variable, the
only variable the resolver core ever binds: a finite or cofinite set of
extra names.  `evaluate` returns `base` except on the listed
exceptions.  Every boolean combination of `extra` comparisons and
environment-determined constants denotes such a function. -/
structure Marker where
  base : Bool
  exceptions : List String
deriving DecidableEq, Repr

/-- Model of `marker.evaluate({'extra': extra})`. -/
def Marker.evaluate (m : Marker) (extra : String) : Bool :=
  if extra ∈ m.exceptions then !m.base else m.base

/-- Model of `packaging.requirements.Requirement`: a name, a set of
extras, a specifier set, and an optional marker. -/
structure Requirement where
  name : String
  extras : Finset String
  specifier : List SpecClause
  marker : Option Marker
deriving DecidableEq

/-- Model of `packaging.requirements.Requirement(name)` applied to a
bare project name: no extras, an empty specifier and no marker.  This is
what `Candidate.dependencies` injects for the base package. -/
def Requirement.bare (name : String) : Requirement :=
  ⟨name, ∅, [], none⟩

/-- Whether a character is one of the separators `-`, `_`, `.` collapsed
by name canonicalisation. -/
def isNameSep (c : Char) : Bool :=
  decide (c = '-' ∨ c = '_' ∨ c = '.')

/-- Worker for `re.sub(r"[-_.]+", "-", name)`: the flag records whether
the scan is inside a separator run whose `-` has already been
emitted. -/
def collapseAux : Bool → List Char → List Char
  | _, [] => []
  | inRun, c :: rest =>
    if isNameSep c then
      if inRun then collapseAux true rest else '-' :: collapseAux true rest
    else c :: collapseAux false rest

/-- Model of `re.sub(r"[-_.]+", "-", name)`: each maximal run of
separator characters becomes a single `-`. -/
def collapseRuns (l : List Char) : List Char :=
  collapseAux false l

/-- Model of `packaging.utils.canonicalize_name`:
`re.sub(r"[-_.]+", "-", name).lower()`. -/
def canonicalize_name (s : String) : String :=
  ⟨(collapseRuns s.data).map Char.toLower⟩

/-- A PEP 425 compatibility tag (model of `packaging.tags.Tag`). -/
structure Tag where
  interpreter : String
  abi : String
  platform : String
deriving DecidableEq, Repr

/-- Split a character list at every occurrence of a separator character,
like Python's `str.split(sep)` (so the empty list splits to `[[]]`). -/
def splitCh (sep : Char) : List Char → List (List Char)
  | [] => [[]]
  | c :: cs =>
    if c = sep then [] :: splitCh sep cs
    else
      match splitCh sep cs with
      | [] => [[c]]
      | l :: ls => (c :: l) :: ls

/-- Model of `str.split('.')` on a string. -/
def splitOnDot (s : String) : List String :=
  (splitCh '.' s.data).map String.mk

/-- The six named groups of `_WHEEL_NAME_REGEX`
(`distribution`, `version`, optional `build_tag`, `python_tag`,
`abi_tag`, `platform_tag`). -/
structure WheelInfo where
  distribution : String
  version : String
  build_tag : Option String
  python_tag : String
  abi_tag : String
  platform_tag : String
deriving DecidableEq, Repr

/-- All splits of a list into a nonempty prefix and the remaining
suffix, longest prefix first: the order in which a greedy `.+` group
tries its matches. -/
def splits1 (l : List Char) : List (List Char × List Char) :=
  (List.range l.length).map (fun i => (l.take (l.length - i), l.drop (l.length - i)))

/-- Python's `.` matches any character except a newline; a `.+` group
may therefore hold any nonempty newline-free text. -/
def noNewline (l : List Char) : Bool :=
  l.all (fun c => c ≠ '\n')

/-- The regex tail `.whl`: one arbitrary (non-newline) character
followed by the literal letters `whl`; `re.match` allows trailing
text. -/
def matchDotWhl (l : List Char) : Bool :=
  match l with
  | c :: 'w' :: 'h' :: 'l' :: _ => c ≠ '\n'
  | _ => false

/-- Greedy match of `(?P<platform_tag>.+).whl` returning the platform
tag group. -/
def matchPlatform (l : List Char) : Option (List Char) :=
  (splits1 l).findSome? (fun pq =>
    if noNewline pq.1 && matchDotWhl pq.2 then some pq.1 else none)

/-- Greedy match of `(?P<abi_tag>.+)-(?P<platform_tag>.+).whl`. -/
def matchAbi (l : List Char) : Option (List Char × List Char) :=
  (splits1 l).findSome? (fun pq =>
    if noNewline pq.1 then
      match pq.2 with
      | '-' :: rest => (matchPlatform rest).map (fun g => (pq.1, g))
      | _ => none
    else none)

/-- Greedy match of `(?P<python_tag>.+)-(?P<abi_tag>.+)-(?P<platform_tag>.+).whl`. -/
def matchPython (l : List Char) : Option (List Char × List Char × List Char) :=
  (splits1 l).findSome? (fun pq =>
    if noNewline pq.1 then
      match pq.2 with
      | '-' :: rest => (matchAbi rest).map (fun g => (pq.1, g))
      | _ => none
    else none)

/-- Match of `(-(?P<build_tag>.+))?-(?P<python_tag>.+)-…`: the optional
build-tag group is tried first (with a greedy group body), as the regex
engine prefers a present optional group. -/
def matchBuildOpt (l : List Char) :
    Option (Option (List Char) × List Char × List Char × List Char) :=
  match l with
  | '-' :: rest =>
    (((splits1 rest).findSome? (fun pq =>
        if noNewline pq.1 then
          match pq.2 with
          | '-' :: rest2 => (matchPython rest2).map (fun g => (some pq.1, g))
          | _ => none
        else none)).orElse
      (fun _ => (matchPython rest).map (fun g => (none, g))))
  | _ => none

/-- Greedy match of `(?P<version>.+)` followed by the optional build tag
and the three tag groups. -/
def matchVersion (l : List Char) :
    Option (List Char × Option (List Char) × List Char × List Char × List Char) :=
  (splits1 l).findSome? (fun pq =>
    if noNewline pq.1 then (matchBuildOpt pq.2).map (fun g => (pq.1, g))
    else none)

/-- Model of `_WHEEL_NAME_REGEX.match(filename)`, reproducing the
leftmost-greedy backtracking choice of Python's `re` engine: the
`distribution` group is maximised first, then `version`, then a present
`build_tag` is preferred, then the remaining groups in order. -/
def parseWheelName (s : String) : Option WheelInfo :=
  ((splits1 s.data).findSome? (fun pq =>
    if noNewline pq.1 then
      match pq.2 with
      | '-' :: rest => (matchVersion rest).map (fun g => (pq.1, g))
      | _ => none
    else none)).map
    (fun g => ⟨String.mk g.1, String.mk g.2.1, (g.2.2.1).map String.mk,
               String.mk g.2.2.2.1, String.mk g.2.2.2.2.1, String.mk g.2.2.2.2.2⟩)

/-- Model of `WheelArchive.tags`: the Cartesian product of the
dot-separated tokens of the `python_tag`, `abi_tag` and `platform_tag`
filename fields.  Only the parsed filename is consulted; the wheel file
itself is not an input. -/
def wheelTags (info : WheelInfo) : List Tag :=
  (splitOnDot info.python_tag).flatMap (fun py =>
    (splitOnDot info.abi_tag).flatMap (fun abi =>
      (splitOnDot info.platform_tag).map (fun plat => ⟨py, abi, plat⟩)))

/-- Model of `packaging.version.Version(s)` parsing: dot-separated
numeric segments; any malformed segment raises `InvalidVersion`,
modelled as `none`. -/
def parseSegment (l : List Char) : Option Nat :=
  if l ≠ [] ∧ l.all Char.isDigit then
    some (l.foldl (fun n c => n * 10 + (c.toNat - 48)) 0)
  else none

/-- Parse a version string, `none` on failure (`InvalidVersion`). -/
def parseVersion (s : String) : Option Version :=
  ((splitCh '.' s.data).mapM parseSegment).map Version.mk

/-- The metadata of a wheel file relevant to the resolver: the
`Provides-Extra` and `Requires-Dist` header fields (the latter already
parsed into requirements).  Reading it requires downloading the
wheel. -/
structure WheelMetadata where
  provides_extra : List String
  requires_dist : List Requirement
deriving DecidableEq

/-- Model of `resolver.Candidate`: canonical name, version, selected
extras, the parsed wheel filename, and the wheel's metadata (the content
that `archive.metadata` would download on first access). -/
structure Candidate where
  name : String
  version : Version
  extras : Finset String
  archive : WheelInfo
  metadata : WheelMetadata
deriving DecidableEq

/-- Model of `Candidate.__init__`: the name is canonicalised before
storage. -/
def Candidate.init (name : String) (version : Version) (archive : WheelInfo)
    (metadata : WheelMetadata) (extras : Finset String) : Candidate :=
  ⟨canonicalize_name name, version, extras, archive, metadata⟩

/-- Model of `Candidate.is_valid`: every selected extra is advertised in
`Provides-Extra`, and some supported tag occurs among the wheel's
filename tags.  (When no extras are selected the metadata generator body
never runs, so the wheel is not downloaded for the first conjunct.) -/
def Candidate.is_valid (c : Candidate) (supported_tags : List Tag) : Bool :=
  decide (∀ e ∈ c.extras, e ∈ c.metadata.provides_extra)
  && supported_tags.any (fun t => (wheelTags c.archive).contains t)

/-- The requirements contributed by a single `Requires-Dist` entry in
`Candidate.dependencies`: an unmarked entry is kept only when no extras
are selected; a marked entry first injects the bare base package
(whenever extras are selected) and is itself kept when some selected
extra makes the marker true while the empty extra makes it false. -/
def depsOfEntry (c : Candidate) (r : Requirement) : List Requirement :=
  match r.marker with
  | none => if c.extras = ∅ then [r] else []
  | some m =>
    (if c.extras = ∅ then [] else [Requirement.bare c.name])
    ++ (if ∃ e ∈ c.extras, m.evaluate e = true ∧ m.evaluate "" = false then [r] else [])

/-- Model of `Candidate.dependencies`: the union over all
`Requires-Dist` entries of the requirements each contributes. -/
def Candidate.dependencies (c : Candidate) : List Requirement :=
  c.metadata.requires_dist.flatMap (depsOfEntry c)

/-- Model of `resolver.DependencyKey`: canonical name plus extras set.
Python's `__eq__` compares both fields; `__hash__` uses the name
alone. -/
structure DependencyKey where
  name : String
  extras : Finset String
deriving DecidableEq

/-- Model of `DependencyKey.__hash__`, which hashes the name alone,
parametrised by the string hash. -/
def DependencyKey.keyHash (h : String → Nat) (k : DependencyKey) : Nat :=
  h k.name

/-- Model of `Provider.identify` applied to a requirement. -/
def identifyRequirement (r : Requirement) : DependencyKey :=
  ⟨canonicalize_name r.name, r.extras⟩

/-- Model of `Provider.identify` applied to a candidate. -/
def identifyCandidate (c : Candidate) : DependencyKey :=
  ⟨canonicalize_name c.name, c.extras⟩

/-- Model of `Provider.is_satisfied_by`: the canonicalised requirement
name must equal the candidate's (stored, already canonical) name, and
the candidate's version must lie in the requirement's specifier. -/
def is_satisfied_by (r : Requirement) (c : Candidate) : Bool :=
  if canonicalize_name r.name ≠ c.name then false
  else specContains r.specifier c.version

/-- Model of `mousebender.simple.ArchiveLink`: url, filename, and the
parsed `data-requires-python` specifier. -/
structure ArchiveLink where
  url : String
  filename : String
  requires_python : List SpecClause
deriving DecidableEq

/-- One entry of the fetched index page together with the content of
the remote wheel it points at (the metadata that a download would
produce). -/
structure IndexEntry where
  link : ArchiveLink
  wheel_metadata : WheelMetadata
deriving DecidableEq

/-- The configuration of `resolver.Provider` relevant to candidate
enumeration: the python version used against `Requires-Python`, and the
supported-tags sequence. -/
structure Provider where
  python_version : Version
  supported_tags : List Tag
deriving DecidableEq

/-- One iteration of the loop body of `Provider._get_candidates` on one
archive link: the optionally produced candidate, and the list of wheel
files downloaded while processing the link.  The link is skipped when
the python version misses `Requires-Python`, when the filename is not a
`.whl`, when it fails the wheel-name regex, when its version substring
does not parse, or when the constructed candidate is invalid; the
extras-provision part of the validity check reads the wheel metadata and
therefore downloads the wheel whenever the selected extras are
non-empty. -/
def Provider.handle_link (p : Provider) (name : String) (extras : Finset String)
    (e : IndexEntry) : Option Candidate × List String :=
  if ¬ specContains e.link.requires_python p.python_version then (none, [])
  else if ¬ (".whl".data.isSuffixOf e.link.filename.data) then (none, [])
  else
    match parseWheelName e.link.filename with
    | none => (none, [])
    | some info =>
      match parseVersion info.version with
      | none => (none, [])
      | some v =>
        let c := Candidate.init name v info e.wheel_metadata extras
        let downloads := if extras = ∅ then [] else [e.link.filename]
        (if c.is_valid p.supported_tags then some c else none, downloads)

/-- Model of `Provider._get_candidates` over a fetched index page: the
candidates the generator yields (in link order) and the wheels it
downloads while being consumed. -/
def Provider.get_candidates (p : Provider) (index : List IndexEntry)
    (name : String) (extras : Finset String) : List Candidate × List String :=
  (index.filterMap (fun e => (p.handle_link name extras e).1),
   index.flatMap (fun e => (p.handle_link name extras e).2))

/-- Stable insertion of an element into a list: it goes in front of the
first element it compares strictly before. -/
def insertSorted (lt : Candidate → Candidate → Bool) (x : Candidate) :
    List Candidate → List Candidate
  | [] => [x]
  | y :: ys => if lt x y then x :: y :: ys else y :: insertSorted lt x ys

/-- Insertion sort, the model of Python's builtin `sorted`. -/
def insertionSort (lt : Candidate → Candidate → Bool) :
    List Candidate → List Candidate
  | [] => []
  | x :: xs => insertSorted lt x (insertionSort lt xs)

/-- Model of `Provider.sort_candidates`:
`sorted(candidates, key=version, reverse=True)`, i.e. descending by
version. -/
def Provider.sort_candidates (l : List Candidate) : List Candidate :=
  insertionSort (fun a b => vLt b.version a.version) l

/-- Model of `MinimumDependencyProvider.sort_candidates`:
`sorted(candidates, key=version, reverse=False)`, i.e. ascending by
version. -/
def MinimumDependencyProvider.sort_candidates (l : List Candidate) : List Candidate :=
  insertionSort (fun a b => vLt a.version b.version) l

/-- Model of `Provider.find_matches`: enumerate candidates for the
identifier's name bound to its extras, drop those whose version is one
of the incompatible candidates' versions, drop those missing any
caller-requirement's specifier, and sort descending.  The second
component is the list of wheels downloaded: `sorted` consumes the whole
generator, so every download `_get_candidates` performs happens during
`find_matches`. -/
def Provider.find_matches (p : Provider) (index : List IndexEntry)
    (identifier : DependencyKey) (requirements : List Requirement)
    (incompatibilities : List Candidate) : List Candidate × List String :=
  let bad_versions := incompatibilities.map (fun c => c.version)
  let enumerated := p.get_candidates index identifier.name identifier.extras
  let filtered := enumerated.1.filter (fun c =>
    !(bad_versions.any (fun w => vEq w c.version))
    && requirements.all (fun r => specContains r.specifier c.version))
  (Provider.sort_candidates filtered, enumerated.2)

/-- The marker-variable names accepted by the mindeps command line
(`_MARKER_KEYS` in `resolver.mindeps.__main__`). -/
def MARKER_KEYS : List String :=
  ["implementation_version", "platform_python_implementation",
   "implementation_name", "python_full_version", "platform_release",
   "platform_version", "platform_machine", "platform_system",
   "python_version", "sys_platform", "os_name", "python_implementation"]

/-- The python exception kinds the mindeps model can raise. -/
inductive PyError where
  | attributeError
deriving DecidableEq, Repr

/-- The observable outcome of `get_min_deps`: either the pinned mapping
or the exception raised, together with whether `Resolver.resolve` was
ever reached. -/
structure MinDepsOutcome where
  result : Except PyError (List (String × Version))
  resolve_attempted : Bool

/-- Model of `extras.copy() | {''}` on the set model: add the empty
extra if absent. -/
def addEmptyExtra (l : List String) : List String :=
  if "" ∈ l then l else l ++ [""]

/-- The inner loop of `get_min_deps` for one top-level requirement: for
each extra in turn, an unmarked requirement is added; a marked one has
its marker evaluated with that extra and, when true, the marker is
erased in place (mutating the object for the remaining iterations) and
the unmarked requirement added. -/
def processTopRequirement (extras : List String) (r : Requirement) : List Requirement :=
  match extras with
  | [] => []
  | e :: es =>
    match r.marker with
    | none => r :: processTopRequirement es r
    | some m =>
      if m.evaluate e then
        { r with marker := none } :: processTopRequirement es { r with marker := none }
      else processTopRequirement es r

/-- Model of `get_min_deps` from `resolver.mindeps.__main__`.  The
resolvelib resolver is an external collaborator, passed as the function
`resolve`; `default_env` stands for `packaging.markers.default_environment()`.
The statement `extras = extras.copy() | {''}` runs unconditionally
before any resolution: with `extras=None` (the declared default) it
raises `AttributeError` (`None` has no `copy`), modelled as an error
outcome with `resolve_attempted = false`.  The computed marker
environment does not influence the marker model, which tracks only the
dependence on `extra`. -/
def get_min_deps (resolve : List Requirement → List (String × Version))
    (default_env : List (String × String))
    (requirements : List Requirement)
    (extras : Option (List String))
    (markers : Option (List (String × String))) : MinDepsOutcome :=
  match extras with
  | none => ⟨.error .attributeError, false⟩
  | some ex =>
    let extras2 := addEmptyExtra ex
    let _marker_env : List (String × String) :=
      match markers with
      | some ms =>
        if ms.any (fun kv => kv.1 ∈ MARKER_KEYS) then
          ms.filter (fun kv => kv.1 ∈ MARKER_KEYS)
        else default_env
      | none => default_env
    let resolver_requirements :=
      requirements.flatMap (processTopRequirement extras2)
    let pinned := resolve resolver_requirements
    ⟨.ok pinned, true⟩

/-- The per-link filters of §4.8 that the specification names: python
version admitted by `Requires-Python`, a `.whl` filename, a wheel-name
regex match, and a parseable version substring.  (Candidate validity is
deliberately not part of this predicate.) -/
def prefilterOk (p : Provider) (e : IndexEntry) : Bool :=
  specContains e.link.requires_python p.python_version
  && ".whl".data.isSuffixOf e.link.filename.data
  && (match parseWheelName e.link.filename with
      | none => false
      | some info => (parseVersion info.version).isSome)

/-- The synthetic pinned self-dependency `name==version` that §4.6 of
the specification describes. -/
def pinnedSelf (c : Candidate) : Requirement :=
  ⟨c.name, ∅, [⟨SpecOp.eq, c.version⟩], none⟩

/-- The shape of the output of collapsing: every separator character in
it is a `-`, and no two adjacent characters are both separators. -/
def SepTidy (l : List Char) : Prop :=
  l.Chain' (fun a b => ¬(isNameSep a = true ∧ isNameSep b = true)) ∧
  ∀ c ∈ l, isNameSep c = true → c = '-'

/-!  Concrete fixtures for evaluating the model on closed inputs. -/

/-- The parsed fields of the wheel filename `a-1-p-n-x.whl`. -/
def sampleInfo : WheelInfo := ⟨"a", "1", none, "p", "n", "x"⟩

/-- A wheel with no advertised extras and no requirements. -/
def sampleMeta : WheelMetadata := ⟨[], []⟩

/-- An index link to `a-1-p-n-x.whl` with no `Requires-Python` bound. -/
def sampleLink : ArchiveLink := ⟨"https://idx/a-1-p-n-x.whl", "a-1-p-n-x.whl", []⟩

/-- The sample link paired with the sample wheel content. -/
def sampleEntry : IndexEntry := ⟨sampleLink, sampleMeta⟩

/-- The single compatibility tag of `a-1-p-n-x.whl`. -/
def sampleTag : Tag := ⟨"p", "n", "x"⟩

/-- A provider whose supported-tag set is empty (so no candidate is
valid). -/
def sampleProviderNoTags : Provider := ⟨⟨[3]⟩, []⟩

/-- A provider that supports exactly the sample wheel's tag. -/
def sampleProvider : Provider := ⟨⟨[3]⟩, [sampleTag]⟩

/-- A `Requires-Dist` entry `bar; extra == "x"`: its marker is true
exactly on the extra `x` and false on the empty extra. -/
def barExtraReq : Requirement := ⟨"bar", ∅, [], some ⟨false, ["x"]⟩⟩

/-!  Helper lemmas: character lowering. -/

theorem char_toNat_ofNat_valid (n : Nat) (h : n.isValidChar) : (Char.ofNat n).toNat = n := by
  rw [Char.ofNat, dif_pos h]
  simp [Char.ofNatAux, Char.toNat, UInt32.ofNat', UInt32.toNat]

theorem toLower_eq_self (c : Char) (h : ¬ (c.toNat ≥ 65 ∧ c.toNat ≤ 90)) : c.toLower = c := by
  simp only [Char.toLower]
  rw [if_neg h]

theorem toLower_shift (c : Char) (h : c.toNat ≥ 65 ∧ c.toNat ≤ 90) :
    c.toLower.toNat = c.toNat + 32 := by
  have hv : (c.toNat + 32).isValidChar := by left; omega
  have h1 : c.toLower = Char.ofNat (c.toNat + 32) := by
    simp only [Char.toLower]
    rw [if_pos h]
  rw [h1]
  exact char_toNat_ofNat_valid _ hv

theorem toLower_idem (c : Char) : c.toLower.toLower = c.toLower := by
  by_cases h : c.toNat ≥ 65 ∧ c.toNat ≤ 90
  · have h2 := toLower_shift c h
    exact toLower_eq_self _ (by omega)
  · rw [toLower_eq_self c h, toLower_eq_self c h]

theorem toLower_sep (c : Char) (h : isNameSep c = true) : c.toLower = c := by
  simp only [isNameSep, decide_eq_true_eq] at h
  rcases h with h | h | h <;> subst h <;> decide

theorem toLower_not_sep (c : Char) (h : isNameSep c = false) :
    isNameSep c.toLower = false := by
  simp only [isNameSep, decide_eq_true_eq, decide_eq_false_iff_not] at h ⊢
  by_cases hc : c.toNat ≥ 65 ∧ c.toNat ≤ 90
  · have h2 := toLower_shift c hc
    have h3 : (97 : Nat) ≤ c.toLower.toNat := by omega
    intro hcon
    rcases hcon with he | he | he <;> rw [he] at h3 <;> revert h3 <;> decide
  · rw [toLower_eq_self c hc]; exact h

theorem isNameSep_toLower (c : Char) : isNameSep c.toLower = isNameSep c := by
  by_cases h : isNameSep c = true
  · rw [toLower_sep c h, h]
  · have h0 : isNameSep c = false := by simpa using h
    rw [toLower_not_sep c h0, h0]

/-!  Helper lemmas: collapsing separator runs, and idempotence of name
canonicalisation. -/

theorem collapseAux_true_head (l : List Char) :
    collapseAux true l = [] ∨
    ∃ d r, collapseAux true l = d :: r ∧ isNameSep d = false := by
  induction l with
  | nil => left; rfl
  | cons c rest ih =>
    by_cases h : isNameSep c = true
    · simpa [collapseAux, h] using ih
    · right
      have h0 : isNameSep c = false := by simpa using h
      exact ⟨c, collapseAux false rest, by simp [collapseAux, h0], h0⟩

theorem collapseAux_seps (l : List Char) : ∀ (b : Bool),
    ∀ c ∈ collapseAux b l, isNameSep c = true → c = '-' := by
  induction l with
  | nil => intro b c hc; simp [collapseAux] at hc
  | cons c rest ih =>
    intro b d hd hsep
    by_cases h : isNameSep c = true
    · cases b with
      | true =>
        simp only [collapseAux, h, if_true] at hd
        exact ih true d hd hsep
      | false =>
        simp only [collapseAux, h, if_true] at hd
        rcases List.mem_cons.mp hd with he | he
        · exact he
        · exact ih true d he hsep
    · have h0 : isNameSep c = false := by simpa using h
      simp only [collapseAux, h0] at hd
      rcases List.mem_cons.mp hd with he | he
      · subst he; rw [hsep] at h0; cases h0
      · exact ih false d he hsep

theorem collapseAux_chain (l : List Char) : ∀ (b : Bool),
    (collapseAux b l).Chain'
      (fun a b => ¬(isNameSep a = true ∧ isNameSep b = true)) := by
  induction l with
  | nil => intro b; simp [collapseAux]
  | cons c rest ih =>
    intro b
    by_cases h : isNameSep c = true
    · cases b with
      | true => simpa [collapseAux, h] using ih true
      | false =>
        simp only [collapseAux, h, if_true]
        rcases collapseAux_true_head rest with he | ⟨d, r, he, hd⟩
        · rw [he]; simp
        · rw [he]
          refine List.Chain'.cons ?_ (by rw [← he]; exact ih true)
          intro hcon
          rw [hd] at hcon
          exact absurd hcon.2 (by simp)
    · have h0 : isNameSep c = false := by simpa using h
      simp only [collapseAux, h0, if_neg]
      refine List.chain'_cons'.mpr ⟨?_, ih false⟩
      intro y _
      intro hcon
      rw [h0] at hcon
      exact absurd hcon.1 (by simp)

theorem septidy_collapseRuns (l : List Char) : SepTidy (collapseRuns l) :=
  ⟨collapseAux_chain l false, collapseAux_seps l false⟩

theorem collapseAux_fix (l : List Char) (h : SepTidy l) : collapseAux false l = l := by
  induction l with
  | nil => rfl
  | cons c rest ih =>
    obtain ⟨hchain, hseps⟩ := h
    have hrest : SepTidy rest :=
      ⟨(List.chain'_cons'.mp hchain).2, fun d hd => hseps d (List.mem_cons_of_mem c hd)⟩
    by_cases hc : isNameSep c = true
    · have hdash : c = '-' := hseps c (List.mem_cons_self c rest) hc
      have htail : collapseAux true rest = collapseAux false rest := by
        cases rest with
        | nil => rfl
        | cons d r =>
          have hd : isNameSep d = false := by
            have := (List.chain'_cons'.mp hchain).1 d (by simp)
            by_contra hcon
            have hd' : isNameSep d = true := by simpa using hcon
            exact this ⟨hc, hd'⟩
          simp [collapseAux, hd]
      simp only [collapseAux, hc, if_true, htail, ih hrest, hdash]
      simp
    · have h0 : isNameSep c = false := by simpa using hc
      simp only [collapseAux, h0]
      rw [ih hrest]
      simp

theorem septidy_map_toLower (l : List Char) (h : SepTidy l) :
    SepTidy (l.map Char.toLower) := by
  obtain ⟨hchain, hseps⟩ := h
  constructor
  · rw [List.chain'_map]
    refine hchain.imp ?_
    intro a b hab hcon
    rw [isNameSep_toLower, isNameSep_toLower] at hcon
    exact hab hcon
  · intro c hc hsep
    rcases List.mem_map.mp hc with ⟨d, hd, rfl⟩
    rw [isNameSep_toLower] at hsep
    rw [hseps d hd hsep]
    decide

theorem canonicalize_name_idem (s : String) :
    canonicalize_name (canonicalize_name s) = canonicalize_name s := by
  show String.mk ((collapseRuns ((collapseRuns s.data).map Char.toLower)).map Char.toLower)
      = String.mk ((collapseRuns s.data).map Char.toLower)
  have h1 : SepTidy ((collapseRuns s.data).map Char.toLower) :=
    septidy_map_toLower _ (septidy_collapseRuns _)
  rw [show collapseRuns ((collapseRuns s.data).map Char.toLower)
        = (collapseRuns s.data).map Char.toLower from collapseAux_fix _ h1]
  rw [List.map_map]
  congr 1
  exact List.map_congr_left (fun c _ => toLower_idem c)

/-!  Helper lemmas: the version order and insertion sort. -/

theorem vLt_irrefl (v : Version) : vLt v v = false := by
  simp [vLt]

theorem vLt_le_of_false (a b : Version) (h : vLt a b = false) :
    stripZeros b.release ≤ stripZeros a.release := by
  simp only [vLt, decide_eq_false_iff_not, not_lt] at h
  exact h

theorem vLt_lt_of_true (a b : Version) (h : vLt a b = true) :
    stripZeros a.release < stripZeros b.release := by
  simpa [vLt] using h

theorem vLt_false_of_le (a b : Version)
    (h : stripZeros b.release ≤ stripZeros a.release) : vLt a b = false := by
  simp [vLt, not_lt, h]

theorem vLe_of_vLt_false (a b : Version) (h : vLt a b = false) : vLe b a = true := by
  simp [vLe, vLt_le_of_false a b h]

theorem insertSorted_perm (lt : Candidate → Candidate → Bool) (x : Candidate) :
    ∀ l : List Candidate, (insertSorted lt x l).Perm (x :: l) := by
  intro l
  induction l with
  | nil => exact List.Perm.refl _
  | cons y ys ih =>
    by_cases h : lt x y = true
    · simp [insertSorted, h]
    · have h0 : lt x y = false := by simpa using h
      simp only [insertSorted, h0, Bool.false_eq_true, if_false]
      exact (ih.cons y).trans (List.Perm.swap x y ys)

theorem insertionSort_perm (lt : Candidate → Candidate → Bool) :
    ∀ l : List Candidate, (insertionSort lt l).Perm l := by
  intro l
  induction l with
  | nil => exact List.Perm.refl _
  | cons x xs ih =>
    exact (insertSorted_perm lt x (insertionSort lt xs)).trans (ih.cons x)

theorem mem_insertSorted (lt : Candidate → Candidate → Bool) (x z : Candidate)
    (l : List Candidate) : z ∈ insertSorted lt x l ↔ z = x ∨ z ∈ l := by
  rw [(insertSorted_perm lt x l).mem_iff, List.mem_cons]

theorem insertSorted_pairwise (lt : Candidate → Candidate → Bool)
    (Hirr : ∀ a, lt a a = false)
    (Htr : ∀ a b c, lt a b = true → lt c b = false → lt c a = false)
    (x : Candidate) (l : List Candidate)
    (h : l.Pairwise (fun a b => lt b a = false)) :
    (insertSorted lt x l).Pairwise (fun a b => lt b a = false) := by
  induction l with
  | nil => simp [insertSorted]
  | cons y ys ih =>
    rcases List.pairwise_cons.mp h with ⟨hy, hys⟩
    by_cases hxy : lt x y = true
    · simp only [insertSorted, hxy, if_true]
      refine List.pairwise_cons.mpr ⟨?_, h⟩
      intro z hz
      rcases List.mem_cons.mp hz with rfl | hz
      · exact Htr x z z hxy (Hirr z)
      · exact Htr x y z hxy (hy z hz)
    · have h0 : lt x y = false := by simpa using hxy
      simp only [insertSorted, h0, Bool.false_eq_true, if_false]
      refine List.pairwise_cons.mpr ⟨?_, ih hys⟩
      intro z hz
      rcases (mem_insertSorted lt x z ys).mp hz with rfl | hz
      · exact h0
      · exact hy z hz

theorem insertionSort_pairwise (lt : Candidate → Candidate → Bool)
    (Hirr : ∀ a, lt a a = false)
    (Htr : ∀ a b c, lt a b = true → lt c b = false → lt c a = false) :
    ∀ l : List Candidate,
      (insertionSort lt l).Pairwise (fun a b => lt b a = false) := by
  intro l
  induction l with
  | nil => simp [insertionSort]
  | cons x xs ih => exact insertSorted_pairwise lt Hirr Htr x _ ih

/-- The descending comparator used by `Provider.sort_candidates`
satisfies the two order facts insertion sort needs. -/
theorem desc_comparator_irrefl (a : Candidate) :
    (fun a b : Candidate => vLt b.version a.version) a a = false :=
  vLt_irrefl a.version

theorem desc_comparator_trans (a b c : Candidate)
    (h1 : (fun a b : Candidate => vLt b.version a.version) a b = true)
    (h2 : (fun a b : Candidate => vLt b.version a.version) c b = false) :
    (fun a b : Candidate => vLt b.version a.version) c a = false := by
  simp only at h1 h2 ⊢
  exact vLt_false_of_le _ _
    (le_of_lt (lt_of_le_of_lt (vLt_le_of_false _ _ h2) (vLt_lt_of_true _ _ h1)))

theorem asc_comparator_irrefl (a : Candidate) :
    (fun a b : Candidate => vLt a.version b.version) a a = false :=
  vLt_irrefl a.version

theorem asc_comparator_trans (a b c : Candidate)
    (h1 : (fun a b : Candidate => vLt a.version b.version) a b = true)
    (h2 : (fun a b : Candidate => vLt a.version b.version) c b = false) :
    (fun a b : Candidate => vLt a.version b.version) c a = false := by
  simp only at h1 h2 ⊢
  exact vLt_false_of_le _ _
    (le_of_lt (lt_of_lt_of_le (vLt_lt_of_true _ _ h1) (vLt_le_of_false _ _ h2)))

theorem sort_candidates_perm (l : List Candidate) :
    (Provider.sort_candidates l).Perm l :=
  insertionSort_perm _ l

theorem sort_candidates_sorted (l : List Candidate) :
    (Provider.sort_candidates l).Pairwise
      (fun a b => vLe b.version a.version = true) := by
  refine (insertionSort_pairwise _ desc_comparator_irrefl
    (fun a b c h1 h2 => desc_comparator_trans a b c h1 h2) l).imp ?_
  intro a b h
  exact vLe_of_vLt_false _ _ h

theorem mindeps_sort_candidates_perm (l : List Candidate) :
    (MinimumDependencyProvider.sort_candidates l).Perm l :=
  insertionSort_perm _ l

theorem mindeps_sort_candidates_sorted (l : List Candidate) :
    (MinimumDependencyProvider.sort_candidates l).Pairwise
      (fun a b => vLe a.version b.version = true) := by
  refine (insertionSort_pairwise _ asc_comparator_irrefl
    (fun a b c h1 h2 => asc_comparator_trans a b c h1 h2) l).imp ?_
  intro a b h
  exact vLe_of_vLt_false _ _ h

/-!  Helper lemmas: candidate enumeration and downloads. -/

theorem handle_link_snd (p : Provider) (name : String) (extras : Finset String)
    (e : IndexEntry) :
    (p.handle_link name extras e).2 =
      if extras = ∅ then []
      else if prefilterOk p e = true then [e.link.filename] else [] := by
  by_cases h1 : specContains e.link.requires_python p.python_version = true
  · by_cases h2 : (".whl".data.isSuffixOf e.link.filename.data) = true
    · cases hp : parseWheelName e.link.filename with
      | none => simp [Provider.handle_link, prefilterOk, h1, h2, hp]
      | some info =>
        cases hv : parseVersion info.version with
        | none => simp [Provider.handle_link, prefilterOk, h1, h2, hp, hv]
        | some v => simp [Provider.handle_link, prefilterOk, h1, h2, hp, hv]
    · simp [Provider.handle_link, prefilterOk, h1, h2]
  · simp [Provider.handle_link, prefilterOk, h1]

theorem get_candidates_snd (p : Provider) (index : List IndexEntry)
    (name : String) (extras : Finset String) :
    (p.get_candidates index name extras).2 =
      if extras = ∅ then []
      else (index.filter (fun e => prefilterOk p e)).map (fun e => e.link.filename) := by
  induction index with
  | nil => simp [Provider.get_candidates]
  | cons e es ih =>
    simp only [Provider.get_candidates, List.flatMap_cons] at ih ⊢
    simp only [handle_link_snd] at ih ⊢
    by_cases hx : extras = ∅
    · simp only [hx, if_true] at ih ⊢
      simp [ih]
    · simp only [hx, if_false] at ih ⊢
      by_cases hpre : prefilterOk p e = true
      · simp [hpre, ih, List.filter_cons]
      · simp [hpre, ih, List.filter_cons]

/-!  Helper lemmas: dependency derivation. -/

theorem mem_dependencies (c : Candidate) (r : Requirement) :
    r ∈ c.dependencies ↔
      (r.marker = none ∧ r ∈ c.metadata.requires_dist ∧ c.extras = ∅)
      ∨ (r = Requirement.bare c.name ∧ c.extras ≠ ∅
          ∧ ∃ r0 ∈ c.metadata.requires_dist, r0.marker ≠ none)
      ∨ (∃ m, r.marker = some m ∧ r ∈ c.metadata.requires_dist
          ∧ ∃ e ∈ c.extras, m.evaluate e = true ∧ m.evaluate "" = false) := by
  unfold Candidate.dependencies
  rw [List.mem_flatMap]
  constructor
  · rintro ⟨r0, hr0, hmem⟩
    unfold depsOfEntry at hmem
    cases hm : r0.marker with
    | none =>
      rw [hm] at hmem
      by_cases hx : c.extras = ∅
      · simp only [hx, if_true, List.mem_singleton] at hmem
        subst hmem
        exact Or.inl ⟨hm, hr0, hx⟩
      · simp [hx] at hmem
    | some m =>
      rw [hm] at hmem
      rw [List.mem_append] at hmem
      rcases hmem with hb | hr
      · by_cases hx : c.extras = ∅
        · simp [hx] at hb
        · simp only [hx, if_false, List.mem_singleton] at hb
          subst hb
          exact Or.inr (Or.inl ⟨rfl, hx, r0, hr0, by simp [hm]⟩)
      · by_cases hcond : ∃ e ∈ c.extras, m.evaluate e = true ∧ m.evaluate "" = false
        · simp only [hcond, if_true, List.mem_singleton] at hr
          subst hr
          exact Or.inr (Or.inr ⟨m, hm, hr0, hcond⟩)
        · simp [hcond] at hr
  · rintro (⟨hm, hr, hx⟩ | ⟨rfl, hx, r0, hr0, hm0⟩ | ⟨m, hm, hr, hcond⟩)
    · refine ⟨r, hr, ?_⟩
      unfold depsOfEntry
      rw [hm]
      simp [hx]
    · refine ⟨r0, hr0, ?_⟩
      unfold depsOfEntry
      cases hm : r0.marker with
      | none => exact absurd hm hm0
      | some m => simp [hx]
    · refine ⟨r, hr, ?_⟩
      unfold depsOfEntry
      rw [hm]
      simp [hcond]

/-!  Claim theorems. -/

/-- C1 (counterexample): `is_satisfied_by` can return true while the
requirement's extras are not a subset of the candidate's extras — here
the requirement asks for extra `x` and the candidate carries no extras,
yet satisfaction holds because only canonical name and specifier
membership are checked. -/
theorem is_satisfied_by_ignores_extras_cex :
    is_satisfied_by ⟨"a", {"x"}, [], none⟩
        (Candidate.init "a" ⟨[1]⟩ sampleInfo sampleMeta ∅) = true
    ∧ ¬ ((⟨"a", {"x"}, [], none⟩ : Requirement).extras
          ⊆ (Candidate.init "a" ⟨[1]⟩ sampleInfo sampleMeta ∅).extras) := by
  decide

/-- C1 (amended): `is_satisfied_by(requirement, candidate)` returns true
if and only if the canonicalised requirement name equals the candidate's
stored name and the candidate's version is a member of the requirement's
specifier set; the extras of the requirement and the candidate play no
role in the check. -/
theorem is_satisfied_by_characterization (r : Requirement) (c : Candidate) :
    is_satisfied_by r c = true ↔
      (canonicalize_name r.name = c.name
       ∧ specContains r.specifier c.version = true) := by
  unfold is_satisfied_by
  by_cases h : canonicalize_name r.name = c.name
  · simp [h]
  · simp [h]

/-- C2 (counterexample): a candidate selected with the non-empty extras
set `{x}` whose wheel metadata has no `Requires-Dist` entries derives no
dependencies at all — in particular no synthetic pinned self-dependency
`name==version` — so the self-dependency is not emitted for every
candidate with non-empty extras. -/
theorem dependencies_no_pinned_self_cex :
    (Candidate.init "foo" ⟨[1]⟩ sampleInfo ⟨["x"], []⟩ {"x"}).extras ≠ ∅
    ∧ pinnedSelf (Candidate.init "foo" ⟨[1]⟩ sampleInfo ⟨["x"], []⟩ {"x"})
        ∉ (Candidate.init "foo" ⟨[1]⟩ sampleInfo ⟨["x"], []⟩ {"x"}).dependencies := by
  decide

/-- C2 (amended): for a candidate with non-empty selected extras, the
derived dependencies contain a bare self-dependency on the candidate's
own name — with no version pin, no extras, no specifier and no marker —
provided at least one `Requires-Dist` entry of the wheel carries a
marker (the injection happens inside the loop over marked entries). -/
theorem dependencies_bare_self_edge (c : Candidate)
    (h1 : c.extras ≠ ∅)
    (h2 : ∃ r ∈ c.metadata.requires_dist, r.marker ≠ none) :
    Requirement.bare c.name ∈ c.dependencies := by
  rw [mem_dependencies]
  exact Or.inr (Or.inl ⟨rfl, h1, h2⟩)

/-- Witness for C2 (amended) on a candidate with extras `{x}` and a
marked requirement `bar; extra == "x"`. -/
theorem dependencies_bare_self_edge_witness :
    Requirement.bare (Candidate.init "foo" ⟨[1]⟩ sampleInfo
        ⟨["x"], [barExtraReq]⟩ {"x"}).name
      ∈ (Candidate.init "foo" ⟨[1]⟩ sampleInfo
        ⟨["x"], [barExtraReq]⟩ {"x"}).dependencies :=
  dependencies_bare_self_edge _ (by decide) (by decide)

/-- C4 (counterexample): an unmarked `Requires-Dist` entry can appear in
the dependencies of a candidate whose extras set is non-empty: when the
entry is exactly the bare requirement on the candidate's own name, the
base-package injection performed for a marked entry produces an equal
requirement.  Here the wheel lists `foo` itself (unmarked) and
`bar; extra == "x"`, and the candidate is selected with extras `{x}`. -/
theorem dependencies_unmarked_iff_cex :
    ((Requirement.bare "foo").marker = none
     ∧ Requirement.bare "foo"
         ∈ (Candidate.init "foo" ⟨[1]⟩ sampleInfo
            ⟨["x"], [Requirement.bare "foo", barExtraReq]⟩ {"x"}).metadata.requires_dist
     ∧ (Candidate.init "foo" ⟨[1]⟩ sampleInfo
            ⟨["x"], [Requirement.bare "foo", barExtraReq]⟩ {"x"}).extras ≠ ∅)
    ∧ Requirement.bare "foo"
        ∈ (Candidate.init "foo" ⟨[1]⟩ sampleInfo
            ⟨["x"], [Requirement.bare "foo", barExtraReq]⟩ {"x"}).dependencies := by
  decide

/-- C4 (amended): a requirement `r` belongs to a candidate's derived
dependencies exactly when: `r` is unmarked, listed in `Requires-Dist`
and the selected extras are empty; or `r` is the bare requirement on the
candidate's own name, the selected extras are non-empty and some listed
entry carries a marker (the base-package injection); or `r` carries a
marker, is listed, and some selected extra makes the marker true while
the empty extra makes it false. -/
theorem dependencies_membership_characterization (c : Candidate) (r : Requirement) :
    r ∈ c.dependencies ↔
      (r.marker = none ∧ r ∈ c.metadata.requires_dist ∧ c.extras = ∅)
      ∨ (r = Requirement.bare c.name ∧ c.extras ≠ ∅
          ∧ ∃ r0 ∈ c.metadata.requires_dist, r0.marker ≠ none)
      ∨ (∃ m, r.marker = some m ∧ r ∈ c.metadata.requires_dist
          ∧ ∃ e ∈ c.extras, m.evaluate e = true ∧ m.evaluate "" = false) :=
  mem_dependencies c r

/-- C8: on every finite candidate list the default provider's
`sort_candidates` returns a permutation of its input in descending
version order, and the minimum-dependency provider's `sort_candidates`
returns a permutation in ascending version order. -/
theorem sort_candidates_ordering_policies (l : List Candidate) :
    (Provider.sort_candidates l).Perm l
    ∧ (Provider.sort_candidates l).Pairwise
        (fun a b => vLe b.version a.version = true)
    ∧ (MinimumDependencyProvider.sort_candidates l).Perm l
    ∧ (MinimumDependencyProvider.sort_candidates l).Pairwise
        (fun a b => vLe a.version b.version = true) :=
  ⟨sort_candidates_perm l, sort_candidates_sorted l,
   mindeps_sort_candidates_perm l, mindeps_sort_candidates_sorted l⟩

/-- C9: a tag belongs to a wheel's tag set exactly when its interpreter,
abi and platform components come from the dot-separated tokens of the
filename's `python_tag`, `abi_tag` and `platform_tag` fields
respectively — the tag set is the Cartesian product of the three token
lists, computed from the parsed filename alone. -/
theorem wheelTags_cartesian_product (info : WheelInfo) (t : Tag) :
    t ∈ wheelTags info ↔
      (t.interpreter ∈ splitOnDot info.python_tag
       ∧ t.abi ∈ splitOnDot info.abi_tag
       ∧ t.platform ∈ splitOnDot info.platform_tag) := by
  unfold wheelTags
  simp only [List.mem_flatMap, List.mem_map]
  constructor
  · rintro ⟨py, hpy, abi, habi, plat, hplat, rfl⟩
    exact ⟨hpy, habi, hplat⟩
  · rintro ⟨h1, h2, h3⟩
    exact ⟨t.interpreter, h1, t.abi, h2, t.platform, h3, rfl⟩

/-- C3 (counterexample): a single `find_matches` call on an index with
one wheel link, for an identifier with extras `{x}`, downloads that
wheel: the validity check runs while the candidate generator is
consumed, and `sorted` consumes it entirely, so enumeration-plus-sorting
does trigger a wheel download (here the wheel is not even valid — no
supported tags — yet it is downloaded). -/
theorem find_matches_downloads_cex :
    (sampleProviderNoTags.find_matches [sampleEntry]
        ⟨"a", {"x"}⟩ [] []).2 ≠ [] := by
  decide

/-- C3 (amended): candidate validity is checked eagerly while
`_get_candidates` yields, and `find_matches` consumes and sorts the
whole iterator; consequently `find_matches` downloads exactly the wheels
of the links that pass the preliminary filters (Requires-Python,
`.whl` name, regex, version parse) whenever the requested extras are
non-empty, and downloads nothing when they are empty (tags come from the
filename alone). -/
theorem find_matches_downloads_characterization (p : Provider)
    (index : List IndexEntry) (idf : DependencyKey)
    (reqs : List Requirement) (inc : List Candidate) :
    (p.find_matches index idf reqs inc).2 =
      if idf.extras = ∅ then []
      else (index.filter (fun e => prefilterOk p e)).map (fun e => e.link.filename) := by
  simp only [Provider.find_matches]
  exact get_candidates_snd p index idf.name idf.extras

/-- C5: every candidate returned by `find_matches` has a version
distinct (as a version) from all incompatible candidates' versions and
contained in every caller requirement's specifier, and the returned
sequence is sorted by the provider's ordering policy (descending by
version). -/
theorem find_matches_sound (p : Provider) (index : List IndexEntry)
    (idf : DependencyKey) (reqs : List Requirement) (inc : List Candidate)
    (c : Candidate) (h : c ∈ (p.find_matches index idf reqs inc).1) :
    (∀ d ∈ inc, vEq d.version c.version = false)
    ∧ (∀ r ∈ reqs, specContains r.specifier c.version = true)
    ∧ (p.find_matches index idf reqs inc).1.Pairwise
        (fun a b => vLe b.version a.version = true) := by
  simp only [Provider.find_matches] at h ⊢
  rw [(sort_candidates_perm _).mem_iff, List.mem_filter] at h
  obtain ⟨hc, hcond⟩ := h
  rw [Bool.and_eq_true] at hcond
  obtain ⟨hbad, hall⟩ := hcond
  refine ⟨?_, ?_, sort_candidates_sorted _⟩
  · intro d hd
    rw [Bool.not_eq_true', List.any_eq_false] at hbad
    have := hbad d.version (List.mem_map_of_mem _ hd)
    simpa using this
  · intro r hr
    rw [List.all_eq_true] at hall
    exact hall r hr

/-- Witness for C5 on a one-wheel index whose tag the provider
supports. -/
theorem find_matches_sound_witness :
    (∀ d ∈ ([] : List Candidate),
        vEq d.version (Candidate.init "a" ⟨[1]⟩ sampleInfo sampleMeta ∅).version = false)
    ∧ (∀ r ∈ ([] : List Requirement),
        specContains r.specifier
          (Candidate.init "a" ⟨[1]⟩ sampleInfo sampleMeta ∅).version = true)
    ∧ (sampleProvider.find_matches [sampleEntry] ⟨"a", ∅⟩ [] []).1.Pairwise
        (fun a b => vLe b.version a.version = true) :=
  find_matches_sound sampleProvider [sampleEntry] ⟨"a", ∅⟩ [] []
    (Candidate.init "a" ⟨[1]⟩ sampleInfo sampleMeta ∅) (by decide)

/-- C6: `identify` sends a requirement and a candidate to equal keys
exactly when their canonicalised names and their extras sets agree; name
canonicalisation is idempotent; two dependency keys are equal exactly
when both the name and the extras fields agree; and the key hash depends
on the name alone. -/
theorem identity_canonical_laws :
    (∀ (r : Requirement) (c : Candidate),
        identifyRequirement r = identifyCandidate c ↔
          (canonicalize_name r.name = canonicalize_name c.name
           ∧ r.extras = c.extras))
    ∧ (∀ s : String, canonicalize_name (canonicalize_name s) = canonicalize_name s)
    ∧ (∀ k1 k2 : DependencyKey, k1 = k2 ↔ (k1.name = k2.name ∧ k1.extras = k2.extras))
    ∧ (∀ (h : String → Nat) (k1 k2 : DependencyKey), k1.name = k2.name →
        DependencyKey.keyHash h k1 = DependencyKey.keyHash h k2) := by
  refine ⟨?_, canonicalize_name_idem, ?_, ?_⟩
  · intro r c
    simp [identifyRequirement, identifyCandidate, DependencyKey.mk.injEq]
  · intro k1 k2
    constructor
    · rintro rfl
      exact ⟨rfl, rfl⟩
    · rintro ⟨h1, h2⟩
      cases k1
      cases k2
      simp_all
  · intro h k1 k2 hn
    unfold DependencyKey.keyHash
    rw [hn]

/-- Witness for C6: two keys with the same name but different extras
hash identically. -/
theorem identity_canonical_laws_witness :
    DependencyKey.keyHash String.length ⟨"a", ∅⟩
      = DependencyKey.keyHash String.length ⟨"a", {"x"}⟩ :=
  identity_canonical_laws.2.2.2 String.length ⟨"a", ∅⟩ ⟨"a", {"x"}⟩ rfl

/-- C7 (counterexample): a link that passes all four skip conditions
the claim names (python version admitted, `.whl` extension, wheel-name
regex match, parseable version) can still be silently skipped: here the
provider supports no tags, so the candidate fails the validity check and
is not yielded. -/
theorem enumeration_skip_cex :
    prefilterOk sampleProviderNoTags sampleEntry = true
    ∧ (sampleProviderNoTags.handle_link "a" ∅ sampleEntry).1 = none := by
  decide

/-- C7 (amended): a link yields a candidate exactly when the caller's
python version is in its `Requires-Python` specifier, its filename ends
in `.whl` and matches the wheel-name grammar, its version substring
parses, and additionally the constructed candidate passes the validity
check (extras provision and tag intersection); every yielded candidate
is bound to the requested extras. -/
theorem handle_link_yield_characterization (p : Provider) (name : String)
    (extras : Finset String) (e : IndexEntry) :
    ((p.handle_link name extras e).1 ≠ none ↔
      (specContains e.link.requires_python p.python_version = true
       ∧ ".whl".data.isSuffixOf e.link.filename.data = true
       ∧ ∃ info, parseWheelName e.link.filename = some info
          ∧ ∃ v, parseVersion info.version = some v
          ∧ (Candidate.init name v info e.wheel_metadata extras).is_valid
              p.supported_tags = true))
    ∧ (∀ c, (p.handle_link name extras e).1 = some c → c.extras = extras) := by
  constructor
  · by_cases h1 : specContains e.link.requires_python p.python_version = true
    · by_cases h2 : (".whl".data.isSuffixOf e.link.filename.data) = true
      · cases hp : parseWheelName e.link.filename with
        | none => simp [Provider.handle_link, h1, h2, hp]
        | some info =>
          cases hv : parseVersion info.version with
          | none => simp [Provider.handle_link, h1, h2, hp, hv]
          | some v =>
            by_cases hval : (Candidate.init name v info e.wheel_metadata extras).is_valid
                p.supported_tags = true
            · simp [Provider.handle_link, h1, h2, hp, hv, hval]
            · simp [Provider.handle_link, h1, h2, hp, hv, hval]
      · simp [Provider.handle_link, h1, h2]
    · simp [Provider.handle_link, h1]
  · intro c hc
    by_cases h1 : specContains e.link.requires_python p.python_version = true
    · by_cases h2 : (".whl".data.isSuffixOf e.link.filename.data) = true
      · cases hp : parseWheelName e.link.filename with
        | none => simp [Provider.handle_link, h1, h2, hp] at hc
        | some info =>
          cases hv : parseVersion info.version with
          | none => simp [Provider.handle_link, h1, h2, hp, hv] at hc
          | some v =>
            by_cases hval : (Candidate.init name v info e.wheel_metadata extras).is_valid
                p.supported_tags = true
            · simp only [Provider.handle_link, h1, h2, hp, hv, hval] at hc
              simp at hc
              rw [← hc]
              rfl
            · simp [Provider.handle_link, h1, h2, hp, hv, hval] at hc
      · simp [Provider.handle_link, h1, h2] at hc
    · simp [Provider.handle_link, h1] at hc

/-- C10: calling `get_min_deps` with the extras argument absent (its
declared `None` default) raises `AttributeError` from the unconditional
`extras.copy()` before the resolver is ever invoked, and resolution is
only ever attempted when an actual set is supplied. -/
theorem get_min_deps_requires_extras_set
    (resolve : List Requirement → List (String × Version))
    (default_env : List (String × String))
    (requirements : List Requirement)
    (markers : Option (List (String × String))) :
    ((get_min_deps resolve default_env requirements none markers).result
        = Except.error PyError.attributeError
      ∧ (get_min_deps resolve default_env requirements none markers).resolve_attempted
          = false)
    ∧ (∀ extras : Option (List String),
        (get_min_deps resolve default_env requirements extras markers).resolve_attempted
            = true → extras ≠ none) := by
  refine ⟨⟨rfl, rfl⟩, ?_⟩
  intro extras hext
  cases extras with
  | none => simp [get_min_deps] at hext
  | some ex => simp

/-- Witness for C10 at a concrete call with no requirements and an
empty resolver. -/
theorem get_min_deps_requires_extras_set_witness :
    ((get_min_deps (fun _ => []) [] [] none none).result
        = Except.error PyError.attributeError
      ∧ (get_min_deps (fun _ => []) [] [] none none).resolve_attempted = false)
    ∧ (some [] : Option (List String)) ≠ none :=
  ⟨(get_min_deps_requires_extras_set (fun _ => []) [] [] none).1,
   (get_min_deps_requires_extras_set (fun _ => []) [] [] none).2 (some [])
     (by rfl)⟩

end PyResolver
